import Mathlib

/-!
Verification of the stock-data pipeline: the fetch-with-retry stage, the
cleaning stage and the indicator-computation stage, embedded shallowly from
the Python sources (`数据.py`, `数据（静态）.py`, `数据（交互）.py`).

Missing numeric cells (pandas `NaN`) are modelled as `Option ℚ` with `none`
for `NaN`; a pandas comparison `col > 0` is `false` on `NaN`, which
`fieldPos` reproduces.  A dataframe that may be `None` is `Option (List Bar)`.
-/

/-- One raw OHLCV bar as fetched from the provider after column renaming
(`日期/开盘/收盘/最高/最低/成交量` become `Date, Open, Close, High, Low,
Volume`).  The date is the index; numeric cells may be missing (`NaN`). -/
structure Bar where
  Date : Nat
  Open : Option ℚ
  High : Option ℚ
  Low : Option ℚ
  Close : Option ℚ
  Volume : Option ℚ
deriving DecidableEq, Repr

/-- Pandas boolean mask `col > 0`: `NaN > 0` evaluates to `False`, so a
missing cell never passes the filter. -/
def fieldPos (o : Option ℚ) : Bool :=
  match o with
  | some v => decide (0 < v)
  | none => false

/-- Pandas `df.dropna(how="all")` row predicate: every (non-index) field of
the row is missing. -/
def allMissing (b : Bar) : Bool :=
  b.Open.isNone && b.High.isNone && b.Low.isNone && b.Close.isNone && b.Volume.isNone

/-- Cleaning rule 1 (`数据.py` line 95): drop rows where every field is
missing (`dropna(how="all")`). -/
def drop_all_missing (rows : List Bar) : List Bar :=
  rows.filter fun b => !allMissing b

/-- Cleaning rule 2 (`数据.py` line 98): keep rows with `Volume > 0`. -/
def drop_zero_volume (rows : List Bar) : List Bar :=
  rows.filter fun b => fieldPos b.Volume

/-- Cleaning rule 3 (`数据.py` lines 101-103): for each price column in the
order `Open, High, Low, Close`, keep rows where that column is `> 0`. -/
def drop_bad_prices (rows : List Bar) : List Bar :=
  ((((rows.filter fun b => fieldPos b.Open).filter
      fun b => fieldPos b.High).filter
      fun b => fieldPos b.Low).filter
      fun b => fieldPos b.Close)

/-- `clean_data` from `数据.py` lines 89-110 (identical in `数据（静态）.py`
lines 101-122): `None`/empty input propagates as `None`; otherwise the three
row-removal rules run in order, and an all-rows-removed result is also
returned as `None` (with a warning logged). -/
def clean_data (df : Option (List Bar)) : Option (List Bar) :=
  match df with
  | none => none
  | some rows =>
    if rows.isEmpty then none
    else
      let df_clean := drop_bad_prices (drop_zero_volume (drop_all_missing rows))
      if df_clean.isEmpty then none else some df_clean

lemma clean_data_some_inv {rows out : List Bar}
    (h : clean_data (some rows) = some out) :
    out = drop_bad_prices (drop_zero_volume (drop_all_missing rows)) := by
  simp only [clean_data] at h
  by_cases h1 : rows.isEmpty
  · rw [if_pos h1] at h; exact Option.noConfusion h
  · rw [if_neg h1] at h
    by_cases h2 : (drop_bad_prices (drop_zero_volume (drop_all_missing rows))).isEmpty
    · rw [if_pos h2] at h; exact Option.noConfusion h
    · rw [if_neg h2] at h; exact (Option.some.inj h).symm

lemma mem_drop_bad_prices {b : Bar} {rows : List Bar}
    (h : b ∈ drop_bad_prices rows) :
    b ∈ rows ∧ fieldPos b.Open ∧ fieldPos b.High ∧ fieldPos b.Low ∧ fieldPos b.Close := by
  simp only [drop_bad_prices, List.mem_filter] at h
  tauto

lemma mem_drop_zero_volume {b : Bar} {rows : List Bar}
    (h : b ∈ drop_zero_volume rows) : b ∈ rows ∧ fieldPos b.Volume := by
  simpa only [drop_zero_volume, List.mem_filter] using h

lemma fieldPos_iff {o : Option ℚ} : fieldPos o ↔ ∃ v, o = some v ∧ 0 < v := by
  cases o <;> simp [fieldPos]

/-- C1: every row of a successfully cleaned series has its volume present and
positive and all four price fields present and positive. -/
theorem clean_data_postcondition (df : Option (List Bar)) (out : List Bar)
    (h : clean_data df = some out) :
    ∀ b ∈ out,
      (∃ v, b.Volume = some v ∧ 0 < v) ∧
      (∃ p, b.Open = some p ∧ 0 < p) ∧
      (∃ p, b.High = some p ∧ 0 < p) ∧
      (∃ p, b.Low = some p ∧ 0 < p) ∧
      (∃ p, b.Close = some p ∧ 0 < p) := by
  intro b hb
  match df with
  | none => simp [clean_data] at h
  | some rows =>
    rw [clean_data_some_inv h] at hb
    obtain ⟨hb2, hOpen, hHigh, hLow, hClose⟩ := mem_drop_bad_prices hb
    obtain ⟨-, hVol⟩ := mem_drop_zero_volume hb2
    exact ⟨fieldPos_iff.mp hVol, fieldPos_iff.mp hOpen, fieldPos_iff.mp hHigh,
      fieldPos_iff.mp hLow, fieldPos_iff.mp hClose⟩

/-- A fully valid concrete bar used by witnesses. -/
def okBar (d : Nat) : Bar :=
  ⟨d, some 10, some 12, some 9, some 11, some 1000⟩

/-- A bar with zero volume (trading halt), removed by rule 2. -/
def haltBar (d : Nat) : Bar :=
  ⟨d, some 10, some 12, some 9, some 11, some 0⟩

theorem clean_data_postcondition_witness :
    clean_data (some [okBar 1, haltBar 2, okBar 3]) = some [okBar 1, okBar 3] ∧
    ((∃ v, (okBar 1).Volume = some v ∧ 0 < v) ∧
     (∃ p, (okBar 1).Open = some p ∧ 0 < p) ∧
     (∃ p, (okBar 1).High = some p ∧ 0 < p) ∧
     (∃ p, (okBar 1).Low = some p ∧ 0 < p) ∧
     (∃ p, (okBar 1).Close = some p ∧ 0 < p)) :=
  ⟨by decide,
   clean_data_postcondition (some [okBar 1, haltBar 2, okBar 3]) [okBar 1, okBar 3]
     (by decide) (okBar 1) (by decide)⟩

lemma clean_data_sublist_aux {rows out : List Bar}
    (h : clean_data (some rows) = some out) : out.Sublist rows := by
  rw [clean_data_some_inv h]
  exact ((((List.filter_sublist _).trans (List.filter_sublist _)).trans
    (List.filter_sublist _)).trans (List.filter_sublist _)).trans
    ((List.filter_sublist _).trans (List.filter_sublist _))

/-- C9: cleaning only removes rows.  The output of `clean_data` is a sublist
of the input: every surviving row is one of the input rows, unchanged, and
the surviving rows keep their original relative order. -/
theorem clean_data_output_sublist (rows out : List Bar)
    (h : clean_data (some rows) = some out) : out.Sublist rows :=
  clean_data_sublist_aux h

theorem clean_data_output_sublist_witness :
    List.Sublist [okBar 1, okBar 3] [okBar 1, haltBar 2, okBar 3] :=
  clean_data_output_sublist [okBar 1, haltBar 2, okBar 3] [okBar 1, okBar 3] (by decide)

/-- Two bars sharing the date `5`, then a bar dated `3`: duplicate dates and
out-of-order dates in one input. -/
def dupRows : List Bar :=
  [⟨5, some 1, some 1, some 1, some 1, some 1⟩,
   ⟨5, some 2, some 2, some 2, some 2, some 2⟩,
   ⟨3, some 4, some 4, some 4, some 4, some 4⟩]

/-- C5 counterexample: `clean_data` contains no date validation at all.  An
input whose dates are duplicated (5, 5) and out of order (5 then 3) is
neither rejected nor signalled: the cleaner returns it unchanged. -/
theorem clean_data_accepts_bad_dates :
    dupRows.map Bar.Date = [5, 5, 3] ∧
    clean_data (some dupRows) = some dupRows := by
  constructor <;> decide

/-- C5 amended: the cleaner never reorders dates — the output date sequence
is a subsequence of the input date sequence — but it does not raise or
reject duplicate/out-of-order dates either (see the counterexample). -/
theorem clean_data_never_reorders_dates (rows out : List Bar)
    (h : clean_data (some rows) = some out) :
    (out.map Bar.Date).Sublist (rows.map Bar.Date) :=
  (clean_data_sublist_aux h).map Bar.Date

theorem clean_data_never_reorders_dates_witness :
    List.Sublist ([okBar 1, okBar 3].map Bar.Date)
      ([okBar 1, haltBar 2, okBar 3].map Bar.Date) :=
  clean_data_never_reorders_dates [okBar 1, haltBar 2, okBar 3] [okBar 1, okBar 3]
    (by decide)

/-! ## Fetcher (`fetch_a_stock_data`, `数据.py` lines 52-86, identical in
`数据（静态）.py` lines 64-98)

The provider call `ak.stock_zh_a_hist(...)` is modelled as a function from
the attempt number to that call's outcome: either a table of bars or a
raised exception carrying a description.  The Python `for attempt in
range(retries)` loop becomes structural recursion over `List.range retries`;
the log records the loop emits are returned alongside the result.  The
function never raises to its caller: every path returns. -/

/-- Severity of a log record. -/
inductive LogLevel
  | info
  | warning
  | error
deriving DecidableEq, Repr

/-- The four log records `fetch_a_stock_data` can emit, each carrying what
its message interpolates: the cleaned symbol, the attempt number for a
retry, and the exception description for a terminal failure. -/
inductive LogRec
  | fetchSuccess (symbol : List Char)
  | fetchEmpty (symbol : List Char)
  | fetchRetry (symbol : List Char) (attempt : Nat)
  | fetchTerminal (symbol : List Char) (desc : String)
deriving DecidableEq, Repr

/-- Level at which each record is logged (`logging.info` / `.warning` /
`.error` in the source). -/
def LogRec.level : LogRec → LogLevel
  | .fetchSuccess _ => .info
  | .fetchEmpty _ => .warning
  | .fetchRetry _ _ => .warning
  | .fetchTerminal _ _ => .error

/-- `symbol.split(".")[0]`: strip any exchange suffix after the first dot. -/
def symbolClean (symbol : List Char) : List Char :=
  symbol.takeWhile fun ch => ch ≠ '.'

/-- Body of the retry loop.  The remaining attempt numbers are the yet
unvisited part of `range(retries)`.  A non-raising call returns at once
(empty table: warning + `None`; otherwise: info + the table as-is).  A
raising call either logs a warning and continues (when further attempts
remain, `attempt < retries - 1`) or logs an error carrying the exception
description and returns `None`. -/
def fetchLoop (provider : Nat → Except String (List Bar)) (sym : List Char)
    (retries : Nat) : List Nat → Option (List Bar) × List LogRec
  | [] => (none, [])
  | attempt :: rest =>
    match provider attempt with
    | Except.ok df =>
      if df.isEmpty then (none, [LogRec.fetchEmpty sym])
      else (some df, [LogRec.fetchSuccess sym])
    | Except.error e =>
      if attempt < retries - 1 then
        let r := fetchLoop provider sym retries rest
        (r.1, LogRec.fetchRetry sym attempt :: r.2)
      else (none, [LogRec.fetchTerminal sym e])

/-- `fetch_a_stock_data(symbol, retries)` (default `retries = 3`): clean the
symbol, then run the retry loop over `range(retries)`. -/
def fetch_a_stock_data (provider : List Char → Nat → Except String (List Bar))
    (symbol : List Char) (retries : Nat) : Option (List Bar) × List LogRec :=
  fetchLoop (provider (symbolClean symbol)) (symbolClean symbol) retries
    (List.range retries)

lemma fetchLoop_all_fail (p : Nat → Except String (List Bar)) (sym : List Char)
    (retries : Nat) (msgs : Nat → String) (n attempt : Nat)
    (hsum : attempt + n = retries) (hn : 0 < n)
    (hall : ∀ i, attempt ≤ i → i < retries → p i = Except.error (msgs i)) :
    fetchLoop p sym retries (List.range' attempt n) =
      (none,
       ((List.range' attempt (n - 1)).map fun j => LogRec.fetchRetry sym j) ++
         [LogRec.fetchTerminal sym (msgs (retries - 1))]) := by
  induction n generalizing attempt with
  | zero => omega
  | succ m ih =>
    rw [List.range'_succ]
    have hp : p attempt = Except.error (msgs attempt) := hall attempt le_rfl (by omega)
    simp only [fetchLoop, hp]
    by_cases hm : m = 0
    · subst hm
      have hno : ¬ attempt < retries - 1 := by omega
      rw [if_neg hno]
      have ha : attempt = retries - 1 := by omega
      simp [ha, List.range'_zero]
    · have hlt : attempt < retries - 1 := by omega
      rw [if_pos hlt]
      rw [ih (attempt + 1) (by omega) (by omega)
        (fun i hi hir => hall i (by omega) hir)]
      have hm' : m + 1 - 1 = (m - 1) + 1 := by omega
      rw [hm', List.range'_succ]
      simp

lemma fetchLoop_success (p : Nat → Except String (List Bar)) (sym : List Char)
    (retries k : Nat) (df : List Bar) (hne : df.isEmpty = false)
    (hok : p k = Except.ok df) (n attempt : Nat)
    (hsum : attempt + n = retries) (hak : attempt ≤ k) (hkr : k < retries)
    (hfail : ∀ i, attempt ≤ i → i < k → ∃ e, p i = Except.error e) :
    fetchLoop p sym retries (List.range' attempt n) =
      (some df,
       ((List.range' attempt (k - attempt)).map fun j => LogRec.fetchRetry sym j) ++
         [LogRec.fetchSuccess sym]) := by
  induction n generalizing attempt with
  | zero => omega
  | succ m ih =>
    rw [List.range'_succ]
    by_cases hk : attempt = k
    · subst hk
      simp only [fetchLoop, hok, hne]
      simp [List.range'_zero]
    · obtain ⟨e, hp⟩ := hfail attempt le_rfl (by omega)
      simp only [fetchLoop, hp]
      have hlt : attempt < retries - 1 := by omega
      rw [if_pos hlt]
      rw [ih (attempt + 1) (by omega) (by omega)
        (fun i hi hik => hfail i (by omega) hik)]
      have hd : k - attempt = (k - (attempt + 1)) + 1 := by omega
      rw [hd, List.range'_succ]
      simp

/-- C3: the retry contract.  First conjunct: when every one of the `retries`
provider calls raises, the fetch returns `None` (no exception escapes — the
function is total) together with one warning-level retry record per
non-final attempt and a final error-level record carrying the last raised
description.  Second conjunct: when attempts before `k` raise and attempt
`k < retries` returns a non-empty table, the fetch returns that table
as-is, with exactly `k` warning-level retry records and one info record. -/
theorem fetch_retry_contract :
    (∀ (provider : List Char → Nat → Except String (List Bar))
       (symbol : List Char) (retries : Nat) (msgs : Nat → String), 0 < retries →
      (∀ i, i < retries → provider (symbolClean symbol) i = Except.error (msgs i)) →
      fetch_a_stock_data provider symbol retries =
        (none,
         ((List.range (retries - 1)).map fun j =>
            LogRec.fetchRetry (symbolClean symbol) j) ++
           [LogRec.fetchTerminal (symbolClean symbol) (msgs (retries - 1))]))
  ∧ (∀ (provider : List Char → Nat → Except String (List Bar))
       (symbol : List Char) (retries k : Nat) (df : List Bar), k < retries →
      df.isEmpty = false →
      (∀ i, i < k → ∃ e, provider (symbolClean symbol) i = Except.error e) →
      provider (symbolClean symbol) k = Except.ok df →
      fetch_a_stock_data provider symbol retries =
        (some df,
         ((List.range k).map fun j => LogRec.fetchRetry (symbolClean symbol) j) ++
           [LogRec.fetchSuccess (symbolClean symbol)])) := by
  constructor
  · intro provider symbol retries msgs hr hall
    unfold fetch_a_stock_data
    rw [List.range_eq_range']
    rw [fetchLoop_all_fail (provider (symbolClean symbol)) (symbolClean symbol)
      retries msgs retries 0 (by omega) hr (fun i _ hir => hall i hir)]
    rw [List.range_eq_range']
  · intro provider symbol retries k df hkr hne hfail hok
    unfold fetch_a_stock_data
    rw [List.range_eq_range']
    rw [fetchLoop_success (provider (symbolClean symbol)) (symbolClean symbol)
      retries k df hne hok retries 0 (by omega) (by omega) hkr
      (fun i _ hik => hfail i hik)]
    rw [List.range_eq_range']
    simp

/-- Scenario provider for the retry contract: raises on the first two calls,
succeeds with a non-empty table on the third. -/
def scenProvider : List Char → Nat → Except String (List Bar) :=
  fun _ attempt =>
    if attempt < 2 then Except.error "connection reset" else Except.ok [okBar 1, okBar 2]

theorem fetch_retry_contract_witness :
    fetch_a_stock_data scenProvider ['6', '0', '0', '5', '1', '9'] 3 =
      (some [okBar 1, okBar 2],
       [LogRec.fetchRetry ['6', '0', '0', '5', '1', '9'] 0,
        LogRec.fetchRetry ['6', '0', '0', '5', '1', '9'] 1,
        LogRec.fetchSuccess ['6', '0', '0', '5', '1', '9']]) ∧
    ((fetch_a_stock_data scenProvider ['6', '0', '0', '5', '1', '9'] 3).2.filter
        fun r => r.level == LogLevel.warning).length = 2 := by
  have h := fetch_retry_contract.2 scenProvider ['6', '0', '0', '5', '1', '9'] 3 2
    [okBar 1, okBar 2] (by decide) (by decide)
    (fun i hi => ⟨"connection reset", by
      have : i < 2 := hi
      simp [scenProvider, symbolClean, this]⟩)
    rfl
  constructor
  · exact h.trans (by decide)
  · rw [h]; decide

/-- C4 amended: a provider call returning zero rows makes the fetch return
immediately — `None` plus a single warning-level empty-data record, no
further attempts consumed (the provider's outcomes after attempt 0 are
unconstrained) — but the returned value `None` is the same value the
terminal failure path returns: the empty case is distinguishable only in
the log record's level, not in the function's result. -/
theorem fetch_empty_short_circuits
    (provider : List Char → Nat → Except String (List Bar))
    (symbol : List Char) (retries : Nat) (hr : 0 < retries)
    (hempty : provider (symbolClean symbol) 0 = Except.ok []) :
    fetch_a_stock_data provider symbol retries =
      (none, [LogRec.fetchEmpty (symbolClean symbol)]) ∧
    (LogRec.fetchEmpty (symbolClean symbol)).level = LogLevel.warning := by
  refine ⟨?_, rfl⟩
  unfold fetch_a_stock_data
  obtain ⟨m, rfl⟩ : ∃ m, retries = m + 1 := ⟨retries - 1, by omega⟩
  rw [List.range_eq_range', List.range'_succ]
  simp [fetchLoop, hempty]

/-- A provider whose every call yields an empty table. -/
def provEmpty : List Char → Nat → Except String (List Bar) :=
  fun _ _ => Except.ok []

/-- A provider whose every call raises. -/
def provFail : List Char → Nat → Except String (List Bar) :=
  fun _ _ => Except.error "network down"

theorem fetch_empty_short_circuits_witness :
    (fetch_a_stock_data provEmpty ['3', '0', '0', '7', '5', '0'] 3 =
      (none, [LogRec.fetchEmpty (symbolClean ['3', '0', '0', '7', '5', '0'])])) ∧
    (LogRec.fetchEmpty (symbolClean ['3', '0', '0', '7', '5', '0'])).level =
      LogLevel.warning :=
  fetch_empty_short_circuits provEmpty ['3', '0', '0', '7', '5', '0'] 3
    (by decide) rfl

/-- C4 counterexample: the fetch stage's returned value is not a three-way
outcome.  On a provider that returns zero rows and on a provider that raises
on every attempt, `fetch_a_stock_data` returns the same value `None`: the
"empty" outcome and the terminal-failure outcome are identical in the
result the caller receives. -/
theorem fetch_result_conflates_empty_and_error :
    (fetch_a_stock_data provEmpty ['6', '0', '0', '5', '1', '9'] 3).1 = none ∧
    (fetch_a_stock_data provFail ['6', '0', '0', '5', '1', '9'] 3).1 = none ∧
    (fetch_a_stock_data provEmpty ['6', '0', '0', '5', '1', '9'] 3).1 =
      (fetch_a_stock_data provFail ['6', '0', '0', '5', '1', '9'] 3).1 := by
  refine ⟨by decide, by decide, by decide⟩

/-! ## IndicatorEngine (`get_stock_data`, `数据（交互）.py` lines 92-112; the
same formulas appear in `plot_stock_data`, `数据（静态）.py` lines 174-194)

The bars fed to the indicator computation are modelled with all numeric
fields present (the shape of a cleaned series).  Each derived column is a
function of the positional index `t`; a rolling window that is not yet full
yields `none` (pandas `NaN`), matching `rolling(n).mean()` with its default
`min_periods = n`.  The seeded EMA (`ewm(span, adjust=False).mean()`) is
total from the first bar. -/

/-- One bar of a series entering indicator computation: every field holds a
number. -/
structure CBar where
  Date : Nat
  Open : ℚ
  High : ℚ
  Low : ℚ
  Close : ℚ
  Volume : ℚ
deriving DecidableEq, Repr, Inhabited

/-- The `Close` column. -/
def closes (bars : List CBar) : List ℚ := bars.map CBar.Close

/-- The `Close` column as a function of the positional index (only ever
evaluated at indices below the series length). -/
def closeF (bars : List CBar) : Nat → ℚ := fun t => (closes bars).getD t 0

/-- `Close.rolling(n).mean()` at position `t`: undefined until the window of
`n` consecutive bars ending at `t` is full, then the arithmetic mean of
`cs[t-n+1..t]`. -/
def maAt (n : Nat) (cs : List ℚ) (t : Nat) : Option ℚ :=
  if t + 1 < n then none
  else some (((List.range n).map fun i => cs.getD (t - i) 0).sum / (n : ℚ))

/-- `ewm(span=span, adjust=False).mean()`: the seeded exponential moving
average, `EMA[0] = f 0` and `EMA[t] = α·f t + (1-α)·EMA[t-1]` with
`α = 2/(span+1)`. -/
def ewm (span : Nat) (f : Nat → ℚ) : Nat → ℚ
  | 0 => f 0
  | t + 1 =>
    (2 / ((span : ℚ) + 1)) * f (t + 1) + (1 - 2 / ((span : ℚ) + 1)) * ewm span f t

/-- `df['MACD'] = exp12 - exp26`. -/
def macdF (f : Nat → ℚ) (t : Nat) : ℚ := ewm 12 f t - ewm 26 f t

/-- `df['Signal'] = df['MACD'].ewm(span=9, adjust=False).mean()`. -/
def signalF (f : Nat → ℚ) (t : Nat) : ℚ := ewm 9 (macdF f) t

/-- `df['Hist'] = df['MACD'] - df['Signal']`. -/
def histF (f : Nat → ℚ) (t : Nat) : ℚ := macdF f t - signalF f t

/-- `gain = delta.where(delta > 0, 0)` where `delta = Close.diff()`: the
first delta is `NaN`, whose comparison is `False`, so `where` replaces it
with `0`; afterwards the positive part of the one-bar difference. -/
def gainAt (f : Nat → ℚ) : Nat → ℚ
  | 0 => 0
  | t + 1 => max (f (t + 1) - f t) 0

/-- `loss = -delta.where(delta < 0, 0)`: the negative part of the one-bar
difference, with the leading `NaN` likewise replaced by `0`. -/
def lossAt (f : Nat → ℚ) : Nat → ℚ
  | 0 => 0
  | t + 1 => max (f t - f (t + 1)) 0

/-- `gain.rolling(14).mean()`: simple rolling mean, full-window only. -/
def avgGainAt (f : Nat → ℚ) (t : Nat) : Option ℚ :=
  if t < 13 then none
  else some (((List.range 14).map fun i => gainAt f (t - i)).sum / 14)

/-- `loss.rolling(14).mean()`. -/
def avgLossAt (f : Nat → ℚ) (t : Nat) : Option ℚ :=
  if t < 13 then none
  else some (((List.range 14).map fun i => lossAt f (t - i)).sum / 14)

/-- `rs = avg_gain / avg_loss; RSI = 100 - 100/(1+rs)` under IEEE float
division semantics for the operands that can occur (both averages are
non-negative): a positive average gain over a zero average loss gives
`rs = +∞`, hence `RSI = 100 - 100/∞ = 100`; a zero over zero gives `NaN`,
which stays undefined; otherwise the finite formula applies. -/
def rsiVal (g l : ℚ) : Option ℚ :=
  if l = 0 then (if g = 0 then none else some 100)
  else some (100 - 100 / (1 + g / l))

/-- `df['RSI']` at position `t`: undefined while either rolling average is,
otherwise `rsiVal`. -/
def rsiAt (f : Nat → ℚ) (t : Nat) : Option ℚ :=
  match avgGainAt f t, avgLossAt f t with
  | some g, some l => rsiVal g l
  | _, _ => none

/-- One row of the enriched dataframe: the source bar plus the derived
columns `MA5, MA10, MA20, MACD, Signal, Hist, RSI`.  The MACD family is
total (seeded EMA); the rolling columns may be `NaN`. -/
structure ERow where
  row : CBar
  MA5 : Option ℚ
  MA10 : Option ℚ
  MA20 : Option ℚ
  MACD : ℚ
  Signal : ℚ
  Hist : ℚ
  RSI : Option ℚ
deriving DecidableEq, Repr

/-- The enriched row at positional index `t`. -/
def enrichRow (bars : List CBar) (t : Nat) : ERow :=
  ⟨bars.getD t default,
   maAt 5 (closes bars) t,
   maAt 10 (closes bars) t,
   maAt 20 (closes bars) t,
   macdF (closeF bars) t,
   signalF (closeF bars) t,
   histF (closeF bars) t,
   rsiAt (closeF bars) t⟩

/-- All rows of the dataframe after the derived columns are added (indicator
computation adds no row and removes no row: one output row per input bar,
same order). -/
def enrich (bars : List CBar) : List ERow :=
  (List.range bars.length).map (enrichRow bars)

/-- `df.dropna()` row predicate: the row survives iff none of its cells is
`NaN`; on rows of a cleaned series only the rolling-window columns can be
`NaN`. -/
def rowComplete (r : ERow) : Bool :=
  r.MA5.isSome && r.MA10.isSome && r.MA20.isSome && r.RSI.isSome

/-- The value `get_stock_data` returns for a fetched series (`数据（交互）.py`
line 112, `return df.dropna()`): the enriched rows with every
undefined-valued row removed. -/
def get_stock_data (bars : List CBar) : List ERow :=
  (enrich bars).filter rowComplete

/-- C2: the trim invariant of the returned enriched series.  Every row the
caller receives from `get_stock_data` has all of its window-based derived
columns defined (the MACD family is total by construction, being the seeded
EMA recursion): no undefined derived value survives the final `dropna()`. -/
theorem get_stock_data_no_undefined (bars : List CBar) (r : ERow)
    (h : r ∈ get_stock_data bars) :
    r.MA5.isSome ∧ r.MA10.isSome ∧ r.MA20.isSome ∧ r.RSI.isSome := by
  have hc := (List.mem_filter.mp h).2
  simp only [rowComplete, Bool.and_eq_true] at hc
  exact ⟨hc.1.1.1, hc.1.1.2, hc.1.2, hc.2⟩

/-- C10: fewer than 20 bars leave the 20-bar window of `MA20` unfilled on
every row, so the final `dropna()` removes every row: the caller receives an
empty series. -/
theorem get_stock_data_short_input_empty (bars : List CBar)
    (h : bars.length < 20) : get_stock_data bars = [] := by
  rw [get_stock_data, List.filter_eq_nil_iff]
  intro r hr
  obtain ⟨t, ht, rfl⟩ := List.mem_map.mp hr
  have ht20 : t + 1 < 20 := by
    have := List.mem_range.mp ht; omega
  simp [rowComplete, enrichRow, maAt, ht20]

lemma ewm_const (span : Nat) (c : ℚ) (t : Nat) : ewm span (fun _ => c) t = c := by
  induction t with
  | zero => rfl
  | succ n ih => simp only [ewm, ih]; ring

lemma ewm_of_zero (span : Nat) (f : Nat → ℚ) (hf : ∀ t, f t = 0) (t : Nat) :
    ewm span f t = 0 := by
  induction t with
  | zero => exact hf 0
  | succ n ih => simp only [ewm, ih, hf]; ring

lemma macdF_const (c : ℚ) (t : Nat) : macdF (fun _ => c) t = 0 := by
  simp [macdF, ewm_const]

lemma signalF_const (c : ℚ) (t : Nat) : signalF (fun _ => c) t = 0 :=
  ewm_of_zero 9 _ (macdF_const c) t

lemma histF_const (c : ℚ) (t : Nat) : histF (fun _ => c) t = 0 := by
  rw [histF, macdF_const, signalF_const, sub_zero]

/-- C6: on a constant close series the seeded EMA equals the constant at
every index, so MACD, Signal and Hist are identically 0 and in particular
converge to 0 as the index grows. -/
theorem macd_family_const_converges (c ε : ℚ) (hε : 0 < ε) :
    ∃ N : Nat, ∀ t, N ≤ t →
      |macdF (fun _ => c) t| < ε ∧ |signalF (fun _ => c) t| < ε ∧
        |histF (fun _ => c) t| < ε := by
  refine ⟨0, fun t _ => ?_⟩
  rw [macdF_const, signalF_const, histF_const, abs_zero]
  exact ⟨hε, hε, hε⟩

theorem macd_family_const_converges_witness :
    ∃ N : Nat, ∀ t, N ≤ t →
      |macdF (fun _ => (7 : ℚ)) t| < 1 ∧ |signalF (fun _ => (7 : ℚ)) t| < 1 ∧
        |histF (fun _ => (7 : ℚ)) t| < 1 :=
  macd_family_const_converges 7 1 (by norm_num)

lemma gainAt_nonneg (f : Nat → ℚ) (t : Nat) : 0 ≤ gainAt f t := by
  cases t with
  | zero => exact le_refl 0
  | succ s => exact le_max_right _ _

lemma lossAt_nonneg (f : Nat → ℚ) (t : Nat) : 0 ≤ lossAt f t := by
  cases t with
  | zero => exact le_refl 0
  | succ s => exact le_max_right _ _

lemma list_sum_pos_of_mem {l : List ℚ} (hnn : ∀ x ∈ l, 0 ≤ x) {x : ℚ}
    (hx : x ∈ l) (hpos : 0 < x) : 0 < l.sum := by
  induction l with
  | nil => cases hx
  | cons a s ih =>
    rw [List.sum_cons]
    rcases List.mem_cons.mp hx with h | h
    · exact add_pos_of_pos_of_nonneg (h ▸ hpos)
        (List.sum_nonneg fun y hy => hnn y (List.mem_cons_of_mem _ hy))
    · exact add_pos_of_nonneg_of_pos (hnn a (List.mem_cons_self a s))
        (ih (fun y hy => hnn y (List.mem_cons_of_mem _ hy)) h)

lemma avgLossAt_eq_zero (f : Nat → ℚ) (t : Nat) (ht : 13 ≤ t)
    (h : ∀ i, i + 1 ≤ t → f i ≤ f (i + 1)) : avgLossAt f t = some 0 := by
  rw [avgLossAt, if_neg (by omega)]
  have hz : ∀ x ∈ (List.range 14).map fun i => lossAt f (t - i), x = 0 := by
    intro x hx
    obtain ⟨i, hi, rfl⟩ := List.mem_map.mp hx
    by_cases h0 : t - i = 0
    · rw [h0]; rfl
    · obtain ⟨s, hs⟩ : ∃ s, t - i = s + 1 := ⟨t - i - 1, by omega⟩
      rw [hs]
      show max (f s - f (s + 1)) 0 = 0
      exact max_eq_right (sub_nonpos.mpr (h s (by omega)))
  rw [List.sum_eq_zero hz]
  norm_num

lemma avgGainAt_eq_zero (f : Nat → ℚ) (t : Nat) (ht : 13 ≤ t)
    (h : ∀ i, i + 1 ≤ t → f (i + 1) ≤ f i) : avgGainAt f t = some 0 := by
  rw [avgGainAt, if_neg (by omega)]
  have hz : ∀ x ∈ (List.range 14).map fun i => gainAt f (t - i), x = 0 := by
    intro x hx
    obtain ⟨i, hi, rfl⟩ := List.mem_map.mp hx
    by_cases h0 : t - i = 0
    · rw [h0]; rfl
    · obtain ⟨s, hs⟩ : ∃ s, t - i = s + 1 := ⟨t - i - 1, by omega⟩
      rw [hs]
      show max (f (s + 1) - f s) 0 = 0
      exact max_eq_right (sub_nonpos.mpr (h s (by omega)))
  rw [List.sum_eq_zero hz]
  norm_num

lemma avgGainAt_pos (f : Nat → ℚ) (t : Nat) (ht : 13 ≤ t)
    (h : ∀ i, i + 1 ≤ t → f i < f (i + 1)) :
    ∃ g, avgGainAt f t = some g ∧ 0 < g := by
  rw [avgGainAt, if_neg (by omega)]
  refine ⟨_, rfl, div_pos ?_ (by norm_num)⟩
  have hmem : gainAt f (t - 0) ∈ (List.range 14).map fun i => gainAt f (t - i) :=
    List.mem_map.mpr ⟨0, by simp, rfl⟩
  refine list_sum_pos_of_mem ?_ hmem ?_
  · intro x hx
    obtain ⟨i, -, rfl⟩ := List.mem_map.mp hx
    exact gainAt_nonneg f _
  · have h1 : t - 0 = (t - 1) + 1 := by omega
    rw [h1]
    show 0 < max (f (t - 1 + 1) - f (t - 1)) 0
    exact lt_max_iff.mpr (Or.inl (sub_pos.mpr (h (t - 1) (by omega))))

lemma avgLossAt_pos (f : Nat → ℚ) (t : Nat) (ht : 13 ≤ t)
    (h : ∀ i, i + 1 ≤ t → f (i + 1) < f i) :
    ∃ l, avgLossAt f t = some l ∧ 0 < l := by
  rw [avgLossAt, if_neg (by omega)]
  refine ⟨_, rfl, div_pos ?_ (by norm_num)⟩
  have hmem : lossAt f (t - 0) ∈ (List.range 14).map fun i => lossAt f (t - i) :=
    List.mem_map.mpr ⟨0, by simp, rfl⟩
  refine list_sum_pos_of_mem ?_ hmem ?_
  · intro x hx
    obtain ⟨i, -, rfl⟩ := List.mem_map.mp hx
    exact lossAt_nonneg f _
  · have h1 : t - 0 = (t - 1) + 1 := by omega
    rw [h1]
    show 0 < max (f (t - 1) - f (t - 1 + 1)) 0
    exact lt_max_iff.mpr (Or.inl (sub_pos.mpr (h (t - 1) (by omega))))

lemma rsiAt_eq_100 (f : Nat → ℚ) (t : Nat) (ht : 13 ≤ t)
    (h : ∀ i, i + 1 ≤ t → f i < f (i + 1)) : rsiAt f t = some 100 := by
  obtain ⟨g, hg, hgpos⟩ := avgGainAt_pos f t ht h
  have hl : avgLossAt f t = some 0 :=
    avgLossAt_eq_zero f t ht fun i hi => le_of_lt (h i hi)
  have hred : rsiAt f t = rsiVal g 0 := by unfold rsiAt; rw [hg, hl]
  rw [hred, rsiVal, if_pos rfl, if_neg (ne_of_gt hgpos)]

lemma rsiAt_eq_0 (f : Nat → ℚ) (t : Nat) (ht : 13 ≤ t)
    (h : ∀ i, i + 1 ≤ t → f (i + 1) < f i) : rsiAt f t = some 0 := by
  obtain ⟨l, hl, hlpos⟩ := avgLossAt_pos f t ht h
  have hg : avgGainAt f t = some 0 :=
    avgGainAt_eq_zero f t ht fun i hi => le_of_lt (h i hi)
  have hred : rsiAt f t = rsiVal 0 l := by unfold rsiAt; rw [hg, hl]
  rw [hred, rsiVal, if_neg (ne_of_gt hlpos)]
  norm_num

/-- C7: on a strictly rising close series the 14-bar window contains no
loss, so the zero-average-loss policy forces `RSI = 100` at every index
where the window is full; on a strictly falling series the window contains
no gain and `RSI = 0` there. -/
theorem rsi_extreme_monotone :
    (∀ (bars : List CBar),
      (∀ i, i + 1 < bars.length → closeF bars i < closeF bars (i + 1)) →
      ∀ t, 13 ≤ t → t < bars.length → rsiAt (closeF bars) t = some 100)
  ∧ (∀ (bars : List CBar),
      (∀ i, i + 1 < bars.length → closeF bars (i + 1) < closeF bars i) →
      ∀ t, 13 ≤ t → t < bars.length → rsiAt (closeF bars) t = some 0) :=
  ⟨fun _ h t ht htl => rsiAt_eq_100 _ t ht fun i hi => h i (by omega),
   fun _ h t ht htl => rsiAt_eq_0 _ t ht fun i hi => h i (by omega)⟩

/-- A series whose close rises by one each bar (witness input). -/
def rampBars (n : Nat) : List CBar :=
  (List.range n).map fun t => ⟨t, 1, 1, 1, (t : ℚ), 1⟩

/-- A series whose close falls by one each bar (witness input). -/
def fallBars (n : Nat) : List CBar :=
  (List.range n).map fun t => ⟨t, 1, 1, 1, -(t : ℚ), 1⟩

lemma length_rampBars (n : Nat) : (rampBars n).length = n := by
  simp [rampBars]

lemma length_fallBars (n : Nat) : (fallBars n).length = n := by
  simp [fallBars]

lemma closeF_rampBars (n i : Nat) (hi : i < n) : closeF (rampBars n) i = (i : ℚ) := by
  unfold closeF closes rampBars
  rw [List.map_map, List.getD_eq_getElem?_getD, List.getElem?_map, List.getElem?_range hi]
  rfl

lemma closeF_fallBars (n i : Nat) (hi : i < n) : closeF (fallBars n) i = -(i : ℚ) := by
  unfold closeF closes fallBars
  rw [List.map_map, List.getD_eq_getElem?_getD, List.getElem?_map, List.getElem?_range hi]
  rfl

theorem rsi_extreme_monotone_witness :
    rsiAt (closeF (rampBars 14)) 13 = some 100 ∧
    rsiAt (closeF (fallBars 14)) 13 = some 0 := by
  constructor
  · refine rsi_extreme_monotone.1 (rampBars 14) ?_ 13 (by norm_num) ?_
    · intro i hi
      rw [length_rampBars] at hi
      rw [closeF_rampBars 14 i (by omega), closeF_rampBars 14 (i + 1) (by omega)]
      exact_mod_cast Nat.lt_succ_self i
    · rw [length_rampBars]; norm_num
  · refine rsi_extreme_monotone.2 (fallBars 14) ?_ 13 (by norm_num) ?_
    · intro i hi
      rw [length_fallBars] at hi
      rw [closeF_fallBars 14 i (by omega), closeF_fallBars 14 (i + 1) (by omega)]
      exact neg_lt_neg (by exact_mod_cast Nat.lt_succ_self i)
    · rw [length_fallBars]; norm_num

theorem get_stock_data_no_undefined_witness :
    (enrichRow (rampBars 20) 19 ∈ get_stock_data (rampBars 20)) ∧
    ((enrichRow (rampBars 20) 19).MA5.isSome ∧
     (enrichRow (rampBars 20) 19).MA10.isSome ∧
     (enrichRow (rampBars 20) 19).MA20.isSome ∧
     (enrichRow (rampBars 20) 19).RSI.isSome) := by
  have hrsi : rsiAt (closeF (rampBars 20)) 19 = some 100 := by
    refine rsiAt_eq_100 _ 19 (by norm_num) ?_
    intro i hi
    rw [closeF_rampBars 20 i (by omega), closeF_rampBars 20 (i + 1) (by omega)]
    exact_mod_cast Nat.lt_succ_self i
  have hcomp : rowComplete (enrichRow (rampBars 20) 19) = true := by
    simp [rowComplete, enrichRow, maAt, hrsi]
  have hmem : enrichRow (rampBars 20) 19 ∈ enrich (rampBars 20) := by
    unfold enrich
    refine List.mem_map.mpr ⟨19, ?_, rfl⟩
    rw [length_rampBars]
    exact List.mem_range.mpr (by norm_num)
  exact ⟨List.mem_filter.mpr ⟨hmem, hcomp⟩,
    get_stock_data_no_undefined (rampBars 20) _ (List.mem_filter.mpr ⟨hmem, hcomp⟩)⟩

theorem get_stock_data_short_input_empty_witness :
    (rampBars 15).length < 20 ∧ get_stock_data (rampBars 15) = [] :=
  ⟨by rw [length_rampBars]; norm_num,
   get_stock_data_short_input_empty (rampBars 15) (by rw [length_rampBars]; norm_num)⟩
